import Mathlib

/-!
Verification of the backward program slicer (`slice.py`): a shallow embedding
of the CFG builder (`PyCFG`), the node registry, the reference collector
(`collect_references`) and the backward slicer (`build_slice` / `slice`),
together with theorems settling the specification claims.

Python sets are modelled as `Finset`, the node registry as a list indexed by
the node id (`rid`), and the (possibly non-terminating, possibly raising)
slicer as a fuel-indexed function returning `Option SliceRes` where `none`
means the fuel ran out.
-/

/-- Python AST nodes relevant to the program, in one untyped inductive
mirroring Python's dynamically typed `ast` values.  Constant values and
expression line numbers are carried nowhere because the analyzed code never
reads them (only statement / condition line numbers are consulted). -/
inductive PyAst where
  | module (body : List PyAst)
  | assign (targets : List String) (value : PyAst) (lineno : Nat)
  | annassign (target : String) (ann : PyAst) (lineno : Nat)
  | exprstmt (value : PyAst) (lineno : Nat)
  | ifstmt (test : PyAst) (testLine : Nat) (body : List PyAst) (orelse : List PyAst)
  | whilestmt (test : PyAst) (testLine : Nat) (body : List PyAst)
  | forstmt (body : List PyAst) (lineno : Nat)
  | name (id : String)
  | const
  | binop (left right : PyAst)
  | compare (left right : PyAst)
  | unaryop (operand : PyAst)
deriving Inhabited

/-- `CFGNode.lineno()`: the line number of the wrapped AST element
(`ast_node.lineno if hasattr(ast_node, "lineno") else 0`).  `ast.Module`
has no `lineno`, hence 0; bare expressions never occur as CFG payloads. -/
def PyAst.linenoOf : PyAst → Nat
  | .assign _ _ ln => ln
  | .annassign _ _ ln => ln
  | .exprstmt _ ln => ln
  | .ifstmt _ tl _ _ => tl
  | .whilestmt _ tl _ => tl
  | .forstmt _ ln => ln
  | _ => 0

/-- One CFG node: `rid` is the registry index, `parents`/`children` hold
node ids, `control_set` the controlling condition lines and `relevant_set`
the slicing annotation. -/
structure CFGNode where
  rid : Nat
  parents : List Nat
  ast_node : PyAst
  children : List Nat
  control_set : Finset Nat
  relevant_set : Finset String
deriving Inhabited

/-- The node registry (`REGISTRY`): node with id `i` sits at index `i`. -/
abbrev Registry := List CFGNode

/-- Look a node up by id (total, with a default dummy for out-of-range ids,
which never occur for well-formed registries). -/
def nodeAt (reg : Registry) (i : Nat) : CFGNode := reg.getD i default

/-- Update the node at index `i` in place, leaving other nodes alone. -/
def updAt : Registry → Nat → (CFGNode → CFGNode) → Registry
  | [], _, _ => []
  | n :: rest, 0, f => f n :: rest
  | n :: rest, Nat.succ i, f => n :: updAt rest i f

/-- `CFGNode.add_child`: append `c` to the children of node `p` unless it is
already present. -/
def add_child_reg (reg : Registry) (p c : Nat) : Registry :=
  updAt reg p (fun n =>
    if c ∈ n.children then n else { n with children := n.children ++ [c] })

/-- `CFGNode.update_children` (constructor wiring): register `c` as a child
of every node in `ps`. -/
def add_child_all : List Nat → Nat → Registry → Registry
  | [], _, reg => reg
  | p :: ps, c, reg => add_child_all ps c (add_child_reg reg p c)

/-- `CFGNode.__init__` + `register_node`: allocate a fresh node with the next
id, wire it as a child of each parent, and append it to the registry. -/
def newNode (parents : List Nat) (a : PyAst) (reg : Registry) : Nat × Registry :=
  let rid := reg.length
  (rid, add_child_all parents rid reg ++
    [{ rid := rid, parents := parents, ast_node := a, children := [],
       control_set := ∅, relevant_set := ∅ }])

/-- `CFGNode.update_control_set` applied to every node of a frontier (the
per-statement marking loop in `PyCFG.on_if`). -/
def mark_control : List Nat → Nat → Registry → Registry
  | [], _, reg => reg
  | nid :: rest, tl, reg =>
      mark_control rest tl
        (updAt reg nid (fun n => { n with control_set := insert tl n.control_set }))

/-- `CFGNode.add_parents`: append each id of `ps` to the parents of node `t`
unless already present (the `while` back-edge wiring). -/
def add_parents_reg (t : Nat) : List Nat → Registry → Registry
  | [], reg => reg
  | p :: ps, reg =>
      add_parents_reg t ps
        (updAt reg t (fun n =>
          if p ∈ n.parents then n else { n with parents := n.parents ++ [p] }))

/-- `CFGNode.update_relevant_set`: overwrite the relevant set of node `i`. -/
def setRel (reg : Registry) (i : Nat) (s : Finset String) : Registry :=
  updAt reg i (fun n => { n with relevant_set := s })

/-- Which AST kinds have an `on_<kind>` dispatch rule in `PyCFG.walk`
(`hasattr(self, "on_%s" % ...)`)? -/
def hasHandler : PyAst → Bool
  | .module _ => true
  | .assign _ _ _ => true
  | .whilestmt _ _ _ => true
  | .ifstmt _ _ _ _ => true
  | .binop _ _ => true
  | .compare _ _ => true
  | .unaryop _ => true
  | .exprstmt _ _ => true
  | _ => false

mutual

/-- `PyCFG.walk` together with the `on_<kind>` handlers: dispatch on the AST
node kind, thread the frontier through, and fall back to returning the
frontier unchanged when no handler exists.  Frontier lists are modelled by
value; the Python list-object aliasing this ignores is unobservable for the
programs considered here. -/
def walk : PyAst → List Nat → Registry → List Nat × Registry
  | .module body, fr, reg => walkList body fr reg
  | .assign targets value ln, fr, reg =>
      let r := newNode fr (.assign targets value ln) reg
      walk value [r.1] r.2
  | .whilestmt test tl body, fr, reg =>
      let r := newNode fr (.annassign "_while" test tl) reg
      let w := walk test [r.1] r.2
      let b := walkList body w.1 w.2
      (w.1, add_parents_reg r.1 b.1 b.2)
  | .ifstmt test tl body orelse, fr, reg =>
      let r := newNode fr (.annassign "_if" test tl) reg
      let w := walk test [r.1] r.2
      let b1 := walkIfBody body w.1 w.2 tl
      let b2 := walkIfBody orelse w.1 b1.2 tl
      (b1.1 ++ b2.1, b2.2)
  | .binop left right, fr, reg =>
      let l := walk left fr reg
      walk right l.1 l.2
  | .compare left right, fr, reg =>
      let l := walk left fr reg
      walk right l.1 l.2
  | .unaryop operand, fr, reg => walk operand fr reg
  | .exprstmt value ln, fr, reg =>
      let r := newNode fr (.exprstmt value ln) reg
      walk value [r.1] r.2
  | _, fr, reg => (fr, reg)

/-- `PyCFG.on_module`'s statement loop: thread the frontier through a
statement sequence. -/
def walkList : List PyAst → List Nat → Registry → List Nat × Registry
  | [], fr, reg => (fr, reg)
  | s :: rest, fr, reg =>
      let r := walk s fr reg
      walkList rest r.1 r.2

/-- The branch loops of `PyCFG.on_if`: after each statement, add the test
line to the control set of every node of the current frontier. -/
def walkIfBody : List PyAst → List Nat → Registry → Nat → List Nat × Registry
  | [], fr, reg, _ => (fr, reg)
  | s :: rest, fr, reg, tl =>
      let r := walk s fr reg
      let reg2 := mark_control r.1 tl r.2
      walkIfBody rest r.1 reg2 tl

end

/-- The founder node's payload: `ast.parse("start").body[0]` with its line
number forced to 0. -/
def founderAst : PyAst := .exprstmt (.name "start") 0

/-- `gen_cfg`: reset the registry, create the founder, walk the module,
append the stop node (line 0) and run the final `update_children` pass. -/
def update_children_go : List Nat → Registry → Registry
  | [], reg => reg
  | nid :: rest, reg =>
      update_children_go rest (add_child_all (nodeAt reg nid).parents nid reg)

/-- `PyCFG.update_children`: one pass over every registered node adding it as
a child of each of its parents. -/
def update_children_pass (reg : Registry) : Registry :=
  update_children_go (List.range reg.length) reg

/-- `gen_cfg(fnsrc)`: build the full CFG for a parsed module. -/
def gen_cfg (prog : PyAst) : Registry :=
  let reg0 := (newNode [] founderAst []).2
  let w := walk prog [0] reg0
  let reg2 := (newNode w.1 (.exprstmt (.name "stop") 0) w.2).2
  update_children_pass reg2

/-- `collect_references`: the reference collector.  `none` models the Python
function falling through its `if`/`elif` chain and returning `None` (and,
for composite nodes, the `TypeError` that `None` then provokes). -/
def collect_references : PyAst → Option (List String)
  | .name id => some [id]
  | .const => some []
  | .binop left right => do
      let l ← collect_references left
      let r ← collect_references right
      pure (l ++ r)
  | .assign _ value _ => collect_references value
  | .annassign _ ann _ => collect_references ann
  | .ifstmt test _ _ _ => collect_references test
  | _ => none

/-- `def(m)` as computed by `build_slice`: the assigned target names when the
payload is an `ast.Assign`, empty otherwise. -/
def defSet : PyAst → Finset String
  | .assign targets _ _ => targets.toFinset
  | _ => ∅

/-- Errors the slicer can raise. -/
inductive SliceErr where
  | seedNotFound
  | noneTypeError
deriving DecidableEq

/-- Result of a (sufficiently fuelled) slicer run. -/
inductive SliceRes where
  | ok (lines : Finset Nat) (reg : Registry)
  | err (e : SliceErr)

/-- The per-parent body of `build_slice`'s `for parent in parents` loop up to
the control-dependence test: compute `def(m)`, `relevant_m`, and on a
data dependence add `ref(m)` and the parent's line. -/
def dataStep (past : PyAst) (curRel : Finset String) (lines : Finset Nat) :
    Except SliceErr (Finset String × Finset Nat) :=
  let def_m := defSet past
  let relevant_m := curRel \ def_m
  if curRel ∩ def_m = ∅ then .ok (relevant_m, lines)
  else
    match collect_references past with
    | none => .error .noneTypeError
    | some refs => .ok (relevant_m ∪ refs.toFinset, insert past.linenoOf lines)

/-- One pending activity of the `build_slice` recursion: a fresh
`build_slice(node, vars)` entry, an iteration of its `while` stack loop, or
an iteration of its `for parent in parents` loop. -/
inductive BsCall where
  | top (start : Nat) (vars : Finset String)
  | loop (stack : List Nat) (lines : Finset Nat)
  | pars (cur : Nat) (ps : List Nat) (lines : Finset Nat)

/-- `build_slice`, fuel-indexed: `top` initializes the seed's relevant set
and enters the stack loop; `loop` pops the stack's top (the list head —
Python appends to and pops from the list's end) and processes its parents;
`pars` performs the data-dependence step, the control-dependence step (with
its recursive `build_slice` call) and the relevant-set write-back for one
parent, pushing every parent unconditionally.  Each step costs one unit of
fuel; `none` means the fuel ran out. -/
def bsRun : Nat → BsCall → Registry → Option SliceRes
  | 0, _, _ => none
  | Nat.succ fuel, c, reg =>
    match c with
    | .top start vars => bsRun fuel (.loop [start] ∅) (setRel reg start vars)
    | .loop [] lines => some (.ok lines reg)
    | .loop (cur :: rest) lines =>
        let ps := (nodeAt reg cur).parents
        match bsRun fuel (.pars cur ps lines) reg with
        | none => none
        | some (.err e) => some (.err e)
        | some (.ok lines2 reg2) => bsRun fuel (.loop (ps.reverse ++ rest) lines2) reg2
    | .pars _ [] lines => some (.ok lines reg)
    | .pars cur (p :: ps) lines =>
        let past := (nodeAt reg p).ast_node
        match dataStep past (nodeAt reg cur).relevant_set lines with
        | .error e => some (.err e)
        | .ok rl =>
          if past.linenoOf ∈ (nodeAt reg cur).control_set then
            match collect_references past with
            | none => some (.err .noneTypeError)
            | some refs =>
              match bsRun fuel (.top p refs.toFinset) reg with
              | none => none
              | some (.err e) => some (.err e)
              | some (.ok l2 reg2) =>
                  bsRun fuel (.pars cur ps (insert past.linenoOf rl.2 ∪ l2))
                    (setRel reg2 p rl.1)
          else bsRun fuel (.pars cur ps rl.2) (setRel reg p rl.1)

/-- `build_slice(node, vars)` with a fuel bound. -/
def build_slice (fuel : Nat) (start : Nat) (vars : Finset String)
    (reg : Registry) : Option SliceRes :=
  bsRun fuel (.top start vars) reg

/-- `set(varname)` from the call `build_slice(start_loc, set(varname))`:
Python builds the set of the *characters* of the variable name (as
one-character strings). -/
def seedVars (v : String) : Finset String :=
  (v.toList.map (fun c => String.mk [c])).toFinset

/-- The seed-node lookup loop of `slice`: scan all registered nodes in id
order and keep the *last* one whose line number matches. -/
def find_start_loc (reg : Registry) (linenum : Nat) : Option Nat :=
  reg.foldl (fun acc n => if n.ast_node.linenoOf = linenum then some n.rid else acc)
    none

/-- `slice(nodes, linenum, varname)`: locate the seed node (raising when the
line has no node) and run `build_slice` on `set(varname)`. -/
def slice_query (fuel : Nat) (reg : Registry) (linenum : Nat) (varname : String) :
    Option SliceRes :=
  match find_start_loc reg linenum with
  | none => some (.err .seedNotFound)
  | some start => build_slice fuel start (seedVars varname) reg

/-- The line set of a successful slicer run (`none` on error or fuel-out). -/
def linesOf : Option SliceRes → Option (Finset Nat)
  | some (.ok lines _) => some lines
  | _ => none

/-- The final registry of a successful slicer run (`[]` otherwise). -/
def regOf : Option SliceRes → Registry
  | some (.ok _ reg) => reg
  | _ => []

/-- The error of a failed slicer run (`none` when it succeeded or ran out of
fuel). -/
def errOf : Option SliceRes → Option SliceErr
  | some (.err e) => some e
  | _ => none

/-- Scenario A input: `a = 1; b = 2; c = a + b; d = c` on lines 1-4. -/
def progA : PyAst :=
  .module
    [ .assign ["a"] .const 1,
      .assign ["b"] .const 2,
      .assign ["c"] (.binop (.name "a") (.name "b")) 3,
      .assign ["d"] (.name "c") 4 ]

/-- Scenario D input: `i = 0` (line 1), `while i < 3: i = i + 1` (test line 2,
body line 3). -/
def progD : PyAst :=
  .module
    [ .assign ["i"] .const 1,
      .whilestmt (.compare (.name "i") .const) 2
        [ .assign ["i"] (.binop (.name "i") .const) 3 ] ]

/-- Two statements sharing one source line: `x = 1; y = x` (both line 1). -/
def progSemi : PyAst :=
  .module
    [ .assign ["x"] .const 1,
      .assign ["y"] (.name "x") 1 ]

/-- A nested conditional: `if a:` (line 1) containing `if b:` (line 2) with
branches `x = 1` (line 3) and `x = 2` (line 4). -/
def progNest : PyAst :=
  .module
    [ .ifstmt (.name "a") 1
        [ .ifstmt (.name "b") 2
            [ .assign ["x"] .const 3 ]
            [ .assign ["x"] .const 4 ] ]
        [] ]

/-- The CFG that `gen_cfg` builds for scenario D (`i = 0; while i < 3: i = i + 1`),
parameterized by the five relevant-set annotations; the loop back-edge makes
node 2 (the `while` test) and node 3 (the loop body) each other's parent. -/
def regDrel (r0 r1 r2 r3 r4 : Finset String) : Registry :=
  [ ⟨0, [], founderAst, [1], ∅, r0⟩,
    ⟨1, [0], .assign ["i"] .const 1, [2], ∅, r1⟩,
    ⟨2, [1, 3], .annassign "_while" (.compare (.name "i") .const) 2, [3, 4], ∅, r2⟩,
    ⟨3, [2], .assign ["i"] (.binop (.name "i") .const) 3, [2], ∅, r3⟩,
    ⟨4, [2], .exprstmt (.name "stop") 0, [], ∅, r4⟩ ]

/-- The registry just before the final `update_children` pass of `gen_cfg`:
founder, walked module, and stop node. -/
def gen_cfg_pre (prog : PyAst) : Registry :=
  (newNode (walk prog [0] (newNode [] founderAst []).2).1 (.exprstmt (.name "stop") 0)
    (walk prog [0] (newNode [] founderAst []).2).2).2

/-- A frontier is valid when every id it mentions is a registered node. -/
def frValid (fr : List Nat) (reg : Registry) : Prop := ∀ i ∈ fr, i < reg.length

/-- Registry well-formedness maintained by the builder: node ids equal their
registry index, every parent reference is registered, and no node lists a
child twice. -/
def WF (reg : Registry) : Prop :=
  ∀ i, i < reg.length →
    (nodeAt reg i).rid = i ∧
    (∀ p ∈ (nodeAt reg i).parents, p < reg.length) ∧
    (nodeAt reg i).children.Nodup

instance (fr : List Nat) (reg : Registry) : Decidable (frValid fr reg) := by
  unfold frValid; infer_instance

instance (reg : Registry) : Decidable (WF reg) := by
  unfold WF; infer_instance

/-- How one builder step may change already-registered nodes: ids, parents,
payloads and relevant sets of existing nodes are untouched, control sets only
grow, and the registry only gains nodes (children links may be rewired). -/
def ExtReg (reg reg' : Registry) : Prop :=
  reg.length ≤ reg'.length ∧
  ∀ i, i < reg.length →
    (nodeAt reg' i).rid = (nodeAt reg i).rid ∧
    (nodeAt reg' i).parents = (nodeAt reg i).parents ∧
    (nodeAt reg' i).ast_node = (nodeAt reg i).ast_node ∧
    (nodeAt reg i).control_set ⊆ (nodeAt reg' i).control_set ∧
    (nodeAt reg' i).relevant_set = (nodeAt reg i).relevant_set

/-- How a slice query may change the registry: no node is created or
destroyed and every field except the relevant-set annotation is untouched. -/
def Frame (reg reg' : Registry) : Prop :=
  reg'.length = reg.length ∧
  ∀ i, i < reg.length →
    (nodeAt reg' i).rid = (nodeAt reg i).rid ∧
    (nodeAt reg' i).parents = (nodeAt reg i).parents ∧
    (nodeAt reg' i).ast_node = (nodeAt reg i).ast_node ∧
    (nodeAt reg' i).children = (nodeAt reg i).children ∧
    (nodeAt reg' i).control_set = (nodeAt reg i).control_set

/-- Structural expressions: the shapes Python's parser can put in expression
position (condition or right-hand side).  The builder's expression handlers
are pure pass-throughs on these. -/
def isExpr : PyAst → Bool
  | .name _ => true
  | .const => true
  | .binop l r => isExpr l && isExpr r
  | .compare l r => isExpr l && isExpr r
  | .unaryop e => isExpr e
  | _ => false

mutual

/-- Does a program contain no `if` statement anywhere?  Used to state that
control sets are populated only by `if` processing. -/
def noIf : PyAst → Bool
  | .module body => noIfList body
  | .assign _ value _ => noIf value
  | .annassign _ ann _ => noIf ann
  | .exprstmt value _ => noIf value
  | .ifstmt _ _ _ _ => false
  | .whilestmt test _ body => noIf test && noIfList body
  | .forstmt body _ => noIfList body
  | .name _ => true
  | .const => true
  | .binop l r => noIf l && noIf r
  | .compare l r => noIf l && noIf r
  | .unaryop e => noIf e

def noIfList : List PyAst → Bool
  | [] => true
  | s :: rest => noIf s && noIfList rest

end

/-! ### Basic lemmas about the registry -/

theorem nodeAt_mem (reg : Registry) (i : Nat) (h : i < reg.length) :
    nodeAt reg i ∈ reg := by
  rw [nodeAt, List.getD_eq_getElem _ _ h]
  exact List.getElem_mem h

/-- The seed-node scan keeps the last match: `find_start_loc` returns the rid
of the last registered node whose line number equals the query line. -/
theorem find_start_loc_eq_last (reg : Registry) (ln : Nat) :
    find_start_loc reg ln =
      (reg.reverse.find? (fun n => decide (n.ast_node.linenoOf = ln))).map CFGNode.rid := by
  have h : ∀ (l : List CFGNode) (acc : Option Nat),
      List.foldl (fun acc n => if n.ast_node.linenoOf = ln then some n.rid else acc) acc l =
        ((l.reverse.find? (fun n => decide (n.ast_node.linenoOf = ln))).map CFGNode.rid).or acc := by
    intro l
    induction l with
    | nil => intro acc; simp
    | cons n rest ih =>
      intro acc
      rw [List.foldl_cons, ih, List.reverse_cons, List.find?_append]
      by_cases hc : n.ast_node.linenoOf = ln <;>
        cases hf : rest.reverse.find? (fun n => decide (n.ast_node.linenoOf = ln)) <;>
          simp [hf, hc]
  have h2 := h reg none
  rw [find_start_loc, h2]
  cases reg.reverse.find? (fun n => decide (n.ast_node.linenoOf = ln)) <;> simp

/-! ### Claim C2 — scenario A -/

/-- C2: the claim states that slicing `a = 1; b = 2; c = a + b; d = c` at
line 4 for variable `d` yields exactly the line set 1, 2, 3, 4.  Evaluating
the code on that input shows the slice is in fact the *empty* set: the seed
is the defining assignment itself, whose own definition line is never
examined (only strict ancestors are), so no data dependence ever fires. -/
theorem C2_scenarioA_empty :
    linesOf (slice_query 40 (gen_cfg progA) 4 "d") = some ∅ ∧
    linesOf (slice_query 40 (gen_cfg progA) 4 "d") ≠ some ({1, 2, 3, 4} : Finset Nat) ∧
    find_start_loc (gen_cfg progA) 4 = some 4 :=
  ⟨by decide, by decide, by decide⟩

/-! ### Claim C3 — seed lookup -/

/-- C3 (counterexample): the claim says the query is seeded at the *first*
CFG node whose line equals the seed line.  For `x = 1; y = x` written on one
source line, the first node at line 1 is the node with rid 1, but
`find_start_loc` returns rid 2 — the scan keeps the *last* match. -/
theorem C3_counterexample :
    find_start_loc (gen_cfg progSemi) 1 = some 2 ∧
    ((gen_cfg progSemi).find? (fun n => decide (n.ast_node.linenoOf = 1))).map CFGNode.rid
      = some 1 ∧
    find_start_loc (gen_cfg progSemi) 1 ≠
      ((gen_cfg progSemi).find? (fun n => decide (n.ast_node.linenoOf = 1))).map CFGNode.rid :=
  ⟨by decide, by decide, by decide⟩

/-- C3 (amended): the slice query is seeded at the *last* CFG node whose line
number equals the seed line, and when no node has that line number the slice
call fails with the not-found error rather than producing an empty slice. -/
theorem C3_seed_last_and_error (reg : Registry) (ln : Nat) :
    find_start_loc reg ln =
      (reg.reverse.find? (fun n => decide (n.ast_node.linenoOf = ln))).map CFGNode.rid ∧
    ∀ (fuel : Nat) (v : String), find_start_loc reg ln = none →
      slice_query fuel reg ln v = some (.err .seedNotFound) := by
  refine ⟨find_start_loc_eq_last reg ln, ?_⟩
  intro fuel v h
  simp [slice_query, h]

/-- Witness for C3: on scenario A's CFG and the node-free line 99 the
last-match characterization holds and the query fails with the not-found
error. -/
theorem C3_seed_last_and_error_witness :
    (find_start_loc (gen_cfg progA) 99 =
      ((gen_cfg progA).reverse.find? (fun n => decide (n.ast_node.linenoOf = 99))).map
        CFGNode.rid) ∧
    slice_query 5 (gen_cfg progA) 99 "x" = some (.err .seedNotFound) :=
  ⟨(C3_seed_last_and_error (gen_cfg progA) 99).1,
   (C3_seed_last_and_error (gen_cfg progA) 99).2 5 "x" (by decide)⟩

/-! ### Claim C4 — seed variable set -/

/-- C4: the claim states the seed node's relevant set is initialized to the
singleton containing the seed variable name, also for names longer than one
character.  The code calls `set(varname)`, which builds the set of the
name's *characters*: for `"ab"` this is the two-element set of `"a"`, `"b"`,
not the singleton of `"ab"` (they agree only for one-character names), and
that character set is exactly what the seed node's relevant set becomes. -/
theorem C4_seed_char_set :
    seedVars "ab" = {"a", "b"} ∧
    seedVars "ab" ≠ {"ab"} ∧
    seedVars "d" = {"d"} ∧
    (nodeAt (regOf (slice_query 40 (gen_cfg progA) 4 "ab")) 4).relevant_set = {"a", "b"} :=
  ⟨by decide, by decide, by decide, by decide⟩

/-! ### Claim C5 — reference collector fallback -/

/-- C5: the claim requires `collect_references` to fail explicitly on every
AST kind outside its handled set.  The code's `if`/`elif` chain has no
fallback, so on a comparison, a unary operation, an expression statement, or
a synthesized test node wrapping a comparison it silently returns `None`
(modelled as `none`) instead of raising, while handled kinds return lists. -/
theorem C5_collect_references_silent_none :
    collect_references (.compare (.name "i") .const) = none ∧
    collect_references (.unaryop (.name "x")) = none ∧
    collect_references (.exprstmt (.name "y") 5) = none ∧
    collect_references (.annassign "_while" (.compare (.name "i") .const) 2) = none ∧
    collect_references (.name "i") = some ["i"] :=
  ⟨rfl, rfl, rfl, rfl, rfl⟩

/-! ### Claim C6 — control sets (counterexample part) -/

/-- C6 (counterexample): the claim says *every* CFG node produced while
processing an `if` branch records the condition's line in its `control_set`.
In `if a:` (line 1) enclosing `if b:` (line 2) with two branches, the inner
test node (rid 2) is produced while processing the outer then-branch, yet
its control set does not contain line 1 (it is empty): only nodes on the
frontier after each branch statement are marked. -/
theorem C6_counterexample :
    (1 : Nat) ∉ (nodeAt (gen_cfg progNest) 2).control_set ∧
    (nodeAt (gen_cfg progNest) 2).control_set = ∅ ∧
    (nodeAt (gen_cfg progNest) 2).ast_node = PyAst.annassign "_if" (.name "b") 2 ∧
    (nodeAt (gen_cfg progNest) 2).parents = [1] ∧
    (nodeAt (gen_cfg progNest) 1).ast_node = PyAst.annassign "_if" (.name "a") 1 :=
  ⟨by decide, by decide, rfl, by decide, rfl⟩

/-! ### Claim C10 — unhandled statement kinds in the builder -/

/-- C10: for every AST kind with no `on_<kind>` dispatch rule in the builder
(`for` loops, annotated assignments, bare names, constants, ...), `walk`
raises no error and returns the incoming frontier and registry unchanged, so
unsupported statements are silently omitted from the CFG. -/
theorem C10_walk_unhandled (a : PyAst) (fr : List Nat) (reg : Registry)
    (h : hasHandler a = false) : walk a fr reg = (fr, reg) := by
  cases a <;> first | rfl | simp [hasHandler] at h

/-- Witness for C10: a `for` statement and an annotated assignment have no
handler and pass the frontier through unchanged on scenario CFGs. -/
theorem C10_walk_unhandled_witness :
    hasHandler (PyAst.forstmt [PyAst.assign ["x"] .const 2] 1) = false ∧
    walk (PyAst.forstmt [PyAst.assign ["x"] .const 2] 1) [0] (gen_cfg progA) =
      ([0], gen_cfg progA) ∧
    hasHandler (PyAst.annassign "y" .const 3) = false ∧
    walk (PyAst.annassign "y" .const 3) [1] (gen_cfg progD) = ([1], gen_cfg progD) :=
  ⟨by decide, C10_walk_unhandled _ _ _ (by decide), by decide,
   C10_walk_unhandled _ _ _ (by decide)⟩

/-! ### Claim C1 — non-termination on a looping CFG -/

theorem nodeAt_regDrel_2 (r0 r1 r2 r3 r4 : Finset String) :
    nodeAt (regDrel r0 r1 r2 r3 r4) 2 =
      ⟨2, [1, 3], .annassign "_while" (.compare (.name "i") .const) 2, [3, 4], ∅, r2⟩ := rfl

theorem nodeAt_regDrel_1 (r0 r1 r2 r3 r4 : Finset String) :
    nodeAt (regDrel r0 r1 r2 r3 r4) 1 =
      ⟨1, [0], .assign ["i"] .const 1, [2], ∅, r1⟩ := rfl

theorem nodeAt_regDrel_3 (r0 r1 r2 r3 r4 : Finset String) :
    nodeAt (regDrel r0 r1 r2 r3 r4) 3 =
      ⟨3, [2], .assign ["i"] (.binop (.name "i") .const) 3, [2], ∅, r3⟩ := rfl

theorem setRel_regDrel_1 (r0 r1 r2 r3 r4 s : Finset String) :
    setRel (regDrel r0 r1 r2 r3 r4) 1 s = regDrel r0 s r2 r3 r4 := rfl

theorem setRel_regDrel_2 (r0 r1 r2 r3 r4 s : Finset String) :
    setRel (regDrel r0 r1 r2 r3 r4) 2 s = regDrel r0 r1 s r3 r4 := rfl

theorem setRel_regDrel_3 (r0 r1 r2 r3 r4 s : Finset String) :
    setRel (regDrel r0 r1 r2 r3 r4) 3 s = regDrel r0 r1 r2 s r4 := rfl

theorem dataStep_assign_i_const (cur : Finset String) (lines : Finset Nat) :
    dataStep (PyAst.assign ["i"] PyAst.const 1) cur lines =
      if cur ∩ {"i"} = ∅ then .ok (cur \ {"i"}, lines)
      else .ok (cur \ {"i"}, insert 1 lines) := by
  simp [dataStep, defSet, collect_references, PyAst.linenoOf]

theorem dataStep_assign_i_binop (cur : Finset String) (lines : Finset Nat) :
    dataStep (PyAst.assign ["i"] (.binop (.name "i") .const) 3) cur lines =
      if cur ∩ {"i"} = ∅ then .ok (cur \ {"i"}, lines)
      else .ok ((cur \ {"i"}) ∪ {"i"}, insert 3 lines) := by
  simp [dataStep, defSet, collect_references, PyAst.linenoOf]

theorem dataStep_testnode (cur : Finset String) (lines : Finset Nat) :
    dataStep (PyAst.annassign "_while" (.compare (.name "i") .const) 2) cur lines =
      .ok (cur, lines) := by
  simp [dataStep, defSet]

/-- Processing the parents `[1, 3]` of the `while`-test node 2 either runs
out of fuel or succeeds while only rewriting the relevant sets of nodes 1
and 3, always pushing both parents. -/
theorem bsRun_pars_two (f : Nat) (lines : Finset Nat) (r0 r1 r2 r3 r4 : Finset String) :
    bsRun f (.pars 2 [1, 3] lines) (regDrel r0 r1 r2 r3 r4) = none ∨
    ∃ l2 s1 s3, bsRun f (.pars 2 [1, 3] lines) (regDrel r0 r1 r2 r3 r4) =
      some (.ok l2 (regDrel r0 s1 r2 s3 r4)) := by
  rcases f with _ | _ | _ | f
  · exact Or.inl rfl
  · left
    simp only [bsRun, nodeAt_regDrel_1, nodeAt_regDrel_2, nodeAt_regDrel_3,
      dataStep_assign_i_const, dataStep_assign_i_binop, PyAst.linenoOf,
      setRel_regDrel_1, setRel_regDrel_3]
    split_ifs <;> simp_all [collect_references]
  · left
    simp only [bsRun, nodeAt_regDrel_1, nodeAt_regDrel_2, nodeAt_regDrel_3,
      dataStep_assign_i_const, dataStep_assign_i_binop, PyAst.linenoOf,
      setRel_regDrel_1, setRel_regDrel_3]
    split_ifs <;> simp_all [collect_references]
  · simp only [bsRun, nodeAt_regDrel_1, nodeAt_regDrel_2, nodeAt_regDrel_3,
      dataStep_assign_i_const, dataStep_assign_i_binop, PyAst.linenoOf,
      setRel_regDrel_1, setRel_regDrel_3, Finset.not_mem_empty, if_false]
    split_ifs with h1
    · exact Or.inr ⟨_, _, _, rfl⟩
    · exact Or.inr ⟨_, _, _, rfl⟩

/-- Processing the single parent `[2]` of the loop-body node 3 either runs
out of fuel or succeeds, adding no slice lines (node 2 is no assignment and
no control sets are populated), and pushes node 2 again. -/
theorem bsRun_pars_three (f : Nat) (lines : Finset Nat) (r0 r1 r2 r3 r4 : Finset String) :
    bsRun f (.pars 3 [2] lines) (regDrel r0 r1 r2 r3 r4) = none ∨
    ∃ s2, bsRun f (.pars 3 [2] lines) (regDrel r0 r1 r2 r3 r4) =
      some (.ok lines (regDrel r0 r1 s2 r3 r4)) := by
  rcases f with _ | _ | f
  · exact Or.inl rfl
  · left
    simp only [bsRun, nodeAt_regDrel_2, nodeAt_regDrel_3, dataStep_testnode,
      PyAst.linenoOf, setRel_regDrel_2, Finset.not_mem_empty, if_false]
  · simp only [bsRun, nodeAt_regDrel_2, nodeAt_regDrel_3, dataStep_testnode,
      PyAst.linenoOf, setRel_regDrel_2, Finset.not_mem_empty, if_false]
    exact Or.inr ⟨_, rfl⟩

/-- On the scenario-D CFG, as long as the stack's top is the `while`-test
node 2 or the loop-body node 3, the DFS loop never finishes: popping 2
pushes 3 on top and popping 3 pushes 2 on top (the loop back-edge), so every
amount of fuel is exhausted. -/
theorem bsRun_loopD (f : Nat) : ∀ (t : Nat) (rest : List Nat) (lines : Finset Nat)
    (r0 r1 r2 r3 r4 : Finset String), t = 2 ∨ t = 3 →
    bsRun f (.loop (t :: rest) lines) (regDrel r0 r1 r2 r3 r4) = none := by
  induction f with
  | zero => intros; rfl
  | succ f ih =>
    intro t rest lines r0 r1 r2 r3 r4 ht
    rcases ht with rfl | rfl
    · simp only [bsRun, nodeAt_regDrel_2]
      rcases bsRun_pars_two f lines r0 r1 r2 r3 r4 with h | ⟨l2, s1, s3, h⟩ <;>
        simp only [h]
      simpa using ih 3 (1 :: rest) l2 r0 s1 r2 s3 r4 (Or.inr rfl)
    · simp only [bsRun, nodeAt_regDrel_3]
      rcases bsRun_pars_three f lines r0 r1 r2 r3 r4 with h | ⟨s2, h⟩ <;>
        simp only [h]
      simpa using ih 2 rest lines r0 r1 s2 r3 r4 (Or.inl rfl)

/-- C1: the claim states that the backward slicer terminates on every finite
CFG, including ones with a `while` back-edge.  On the CFG of
`i = 0; while i < 3: i = i + 1`, the slice query at line 2 for `i` never
returns: for every fuel bound the DFS stack loop exhausts it, because the
code pushes every parent unconditionally with no visited guard and the
back-edge keeps re-pushing the test node and loop-body node forever. -/
theorem C1_slice_nonterminating : ∀ fuel : Nat,
    slice_query fuel (gen_cfg progD) 2 "i" = none := by
  intro fuel
  have hfind : find_start_loc (gen_cfg progD) 2 = some 2 := by decide
  have hreg : gen_cfg progD = regDrel ∅ ∅ ∅ ∅ ∅ := rfl
  simp only [slice_query, hfind, build_slice, hreg]
  rcases fuel with _ | f
  · rfl
  · simp only [bsRun, setRel_regDrel_2]
    exact bsRun_loopD f 2 [] ∅ ∅ ∅ (seedVars "i") ∅ ∅ (Or.inl rfl)

/-! ### Primitive registry-operation lemmas -/

theorem nodeAt_cons_succ (n : CFGNode) (l : Registry) (k : Nat) :
    nodeAt (n :: l) (k + 1) = nodeAt l k := rfl

theorem updAt_length (reg : Registry) (i : Nat) (f : CFGNode → CFGNode) :
    (updAt reg i f).length = reg.length := by
  induction reg generalizing i with
  | nil => rfl
  | cons n rest ih =>
    cases i with
    | zero => rfl
    | succ j => simpa [updAt] using ih j

theorem nodeAt_updAt_of_ne (reg : Registry) (i j : Nat) (f : CFGNode → CFGNode)
    (h : j ≠ i) : nodeAt (updAt reg i f) j = nodeAt reg j := by
  induction reg generalizing i j with
  | nil => rfl
  | cons n rest ih =>
    cases i with
    | zero =>
      cases j with
      | zero => exact absurd rfl h
      | succ k => rfl
    | succ m =>
      cases j with
      | zero => rfl
      | succ k =>
        rw [show updAt (n :: rest) (m + 1) f = n :: updAt rest m f from rfl,
          nodeAt_cons_succ, nodeAt_cons_succ]
        exact ih m k (fun hh => h (by omega))

theorem nodeAt_updAt_self (reg : Registry) (i : Nat) (f : CFGNode → CFGNode)
    (h : i < reg.length) : nodeAt (updAt reg i f) i = f (nodeAt reg i) := by
  induction reg generalizing i with
  | nil => simp at h
  | cons n rest ih =>
    cases i with
    | zero => rfl
    | succ m =>
      rw [show updAt (n :: rest) (m + 1) f = n :: updAt rest m f from rfl,
        nodeAt_cons_succ, nodeAt_cons_succ]
      exact ih m (by simpa using h)

theorem nodeAt_append_lt (reg ns : Registry) (i : Nat) (h : i < reg.length) :
    nodeAt (reg ++ ns) i = nodeAt reg i := by
  rw [nodeAt, nodeAt]
  exact List.getD_append _ _ _ _ h

theorem nodeAt_append_self (reg : Registry) (n : CFGNode) :
    nodeAt (reg ++ [n]) reg.length = n := by
  rw [nodeAt, List.getD_append_right _ _ _ _ (Nat.le_refl _)]
  simp

theorem extReg_refl (reg : Registry) : ExtReg reg reg :=
  ⟨Nat.le_refl _, fun _ _ => ⟨rfl, rfl, rfl, Finset.Subset.refl _, rfl⟩⟩

theorem extReg_trans {a b c : Registry} (h1 : ExtReg a b) (h2 : ExtReg b c) : ExtReg a c := by
  refine ⟨Nat.le_trans h1.1 h2.1, fun i hi => ?_⟩
  have hb := h1.2 i hi
  have hc := h2.2 i (Nat.lt_of_lt_of_le hi h1.1)
  exact ⟨hc.1.trans hb.1, hc.2.1.trans hb.2.1, hc.2.2.1.trans hb.2.2.1,
    Finset.Subset.trans hb.2.2.2.1 hc.2.2.2.1, hc.2.2.2.2.trans hb.2.2.2.2⟩

theorem frame_refl (reg : Registry) : Frame reg reg :=
  ⟨rfl, fun _ _ => ⟨rfl, rfl, rfl, rfl, rfl⟩⟩

theorem frame_trans {a b c : Registry} (h1 : Frame a b) (h2 : Frame b c) : Frame a c := by
  refine ⟨h2.1.trans h1.1, fun i hi => ?_⟩
  have hb := h1.2 i hi
  have hc := h2.2 i (h1.1 ▸ hi)
  exact ⟨hc.1.trans hb.1, hc.2.1.trans hb.2.1, hc.2.2.1.trans hb.2.2.1,
    hc.2.2.2.1.trans hb.2.2.2.1, hc.2.2.2.2.trans hb.2.2.2.2⟩

theorem setRel_frame (reg : Registry) (i : Nat) (s : Finset String) :
    Frame reg (setRel reg i s) := by
  refine ⟨updAt_length .., fun j hj => ?_⟩
  by_cases hji : j = i
  · subst hji
    rw [setRel, nodeAt_updAt_self _ _ _ hj]
    exact ⟨rfl, rfl, rfl, rfl, rfl⟩
  · rw [setRel, nodeAt_updAt_of_ne _ _ _ _ hji]
    exact ⟨rfl, rfl, rfl, rfl, rfl⟩

/-! ### Claim C9 — slicing leaves the graph topology unchanged -/

/-- A successful `build_slice` run changes nothing in the registry except
relevant-set annotations: proved by induction on the fuel, composing the
frames of the individual relevant-set writes. -/
theorem bsRun_frame (fuel : Nat) : ∀ (c : BsCall) (reg : Registry) (l : Finset Nat)
    (reg' : Registry), bsRun fuel c reg = some (.ok l reg') → Frame reg reg' := by
  induction fuel with
  | zero => intro c reg l reg' h; exact absurd h (by simp [bsRun])
  | succ f ih =>
    intro c reg l reg' h
    rcases c with ⟨start, vars⟩ | ⟨stack, lines⟩ | ⟨cur, ps, lines⟩
    · exact frame_trans (setRel_frame reg start vars) (ih _ _ _ _ h)
    · rcases stack with _ | ⟨cur, rest⟩
      · simp only [bsRun, Option.some.injEq, SliceRes.ok.injEq] at h
        obtain ⟨h1, h2⟩ := h
        subst h2
        exact frame_refl reg
      · simp only [bsRun] at h
        cases hp : bsRun f (.pars cur (nodeAt reg cur).parents lines) reg with
        | none => rw [hp] at h; simp at h
        | some r =>
          cases r with
          | err e => rw [hp] at h; simp at h
          | ok l2 reg2 =>
            simp only [hp] at h
            exact frame_trans (ih _ _ _ _ hp) (ih _ _ _ _ h)
    · rcases ps with _ | ⟨p, ps⟩
      · simp only [bsRun, Option.some.injEq, SliceRes.ok.injEq] at h
        obtain ⟨h1, h2⟩ := h
        subst h2
        exact frame_refl reg
      · simp only [bsRun] at h
        cases hd : dataStep (nodeAt reg p).ast_node (nodeAt reg cur).relevant_set lines with
        | error e => rw [hd] at h; simp at h
        | ok rl =>
          simp only [hd] at h
          by_cases hc : (nodeAt reg p).ast_node.linenoOf ∈ (nodeAt reg cur).control_set
          · rw [if_pos hc] at h
            cases hcr : collect_references (nodeAt reg p).ast_node with
            | none => rw [hcr] at h; simp at h
            | some refs =>
              simp only [hcr] at h
              cases ht : bsRun f (.top p refs.toFinset) reg with
              | none => rw [ht] at h; simp at h
              | some r =>
                cases r with
                | err e => rw [ht] at h; simp at h
                | ok l2 reg2 =>
                  simp only [ht] at h
                  exact frame_trans (frame_trans (ih _ _ _ _ ht) (setRel_frame reg2 p rl.1)) (ih _ _ _ _ h)
          · rw [if_neg hc] at h
            exact frame_trans (setRel_frame reg p rl.1) (ih _ _ _ _ h)

/-- C9: for every slice query over an already-built CFG that completes,
slicing creates no CFG node and destroys none, and every node's id, parents,
children, ast payload and control set are identical before and after; the
only node state written is the relevant-set annotation. -/
theorem C9_slice_topology_frame (fuel : Nat) (reg : Registry) (ln : Nat) (v : String)
    (l : Finset Nat) (reg' : Registry)
    (h : slice_query fuel reg ln v = some (.ok l reg')) :
    reg'.length = reg.length ∧
    ∀ i, i < reg.length →
      (nodeAt reg' i).rid = (nodeAt reg i).rid ∧
      (nodeAt reg' i).parents = (nodeAt reg i).parents ∧
      (nodeAt reg' i).ast_node = (nodeAt reg i).ast_node ∧
      (nodeAt reg' i).children = (nodeAt reg i).children ∧
      (nodeAt reg' i).control_set = (nodeAt reg i).control_set := by
  rw [slice_query] at h
  cases hf : find_start_loc reg ln with
  | none => rw [hf] at h; simp at h
  | some start =>
    rw [hf] at h
    exact bsRun_frame fuel _ _ _ _ h

/-- Witness for C9: the scenario-A query at line 4 for `d` completes, keeps
the registry length, and leaves the parents, children and control set of
node 3 untouched. -/
theorem C9_slice_topology_frame_witness :
    (regOf (slice_query 40 (gen_cfg progA) 4 "d")).length = (gen_cfg progA).length ∧
    (nodeAt (regOf (slice_query 40 (gen_cfg progA) 4 "d")) 3).parents =
      (nodeAt (gen_cfg progA) 3).parents ∧
    (nodeAt (regOf (slice_query 40 (gen_cfg progA) 4 "d")) 3).children =
      (nodeAt (gen_cfg progA) 3).children ∧
    (nodeAt (regOf (slice_query 40 (gen_cfg progA) 4 "d")) 3).control_set =
      (nodeAt (gen_cfg progA) 3).control_set := by
  have h : slice_query 40 (gen_cfg progA) 4 "d" =
      some (.ok ∅ (regOf (slice_query 40 (gen_cfg progA) 4 "d"))) := rfl
  have hf := C9_slice_topology_frame 40 (gen_cfg progA) 4 "d" ∅ _ h
  exact ⟨hf.1, (hf.2 3 (by decide)).2.1, (hf.2 3 (by decide)).2.2.2.1,
    (hf.2 3 (by decide)).2.2.2.2⟩

/-! ### Builder well-formedness: the CFG construction maintains `WF`,
returns valid frontiers, and only extends the registry (`ExtReg`). -/

theorem updAt_of_le (reg : Registry) (i : Nat) (f : CFGNode → CFGNode)
    (h : reg.length ≤ i) : updAt reg i f = reg := by
  induction reg generalizing i with
  | nil => rfl
  | cons n rest ih =>
    cases i with
    | zero => simp at h
    | succ m => simp only [updAt]; rw [ih m (by simpa using h)]

theorem nodeAt_big (reg : Registry) (i : Nat) (h : reg.length ≤ i) :
    nodeAt reg i = default := by
  rw [nodeAt, List.getD_eq_default]
  exact h

theorem add_child_reg_fields (reg : Registry) (p c j : Nat) :
    (nodeAt (add_child_reg reg p c) j).rid = (nodeAt reg j).rid ∧
    (nodeAt (add_child_reg reg p c) j).parents = (nodeAt reg j).parents ∧
    (nodeAt (add_child_reg reg p c) j).ast_node = (nodeAt reg j).ast_node ∧
    (nodeAt (add_child_reg reg p c) j).control_set = (nodeAt reg j).control_set ∧
    (nodeAt (add_child_reg reg p c) j).relevant_set = (nodeAt reg j).relevant_set ∧
    ∃ ext, (nodeAt (add_child_reg reg p c) j).children = (nodeAt reg j).children ++ ext := by
  by_cases hj : j = p
  · subst hj
    by_cases hl : j < reg.length
    · rw [add_child_reg, nodeAt_updAt_self _ _ _ hl]
      by_cases hc : c ∈ (nodeAt reg j).children
      · simp [hc]
      · simp [hc]
    · rw [add_child_reg, updAt_of_le _ _ _ (Nat.le_of_not_lt hl)]
      exact ⟨rfl, rfl, rfl, rfl, rfl, [], by simp⟩
  · rw [add_child_reg, nodeAt_updAt_of_ne _ _ _ _ hj]
    exact ⟨rfl, rfl, rfl, rfl, rfl, [], by simp⟩

theorem add_child_reg_nodup (reg : Registry) (p c j : Nat)
    (h : (nodeAt reg j).children.Nodup) :
    (nodeAt (add_child_reg reg p c) j).children.Nodup := by
  by_cases hj : j = p
  · subst hj
    by_cases hl : j < reg.length
    · rw [add_child_reg, nodeAt_updAt_self _ _ _ hl]
      by_cases hc : c ∈ (nodeAt reg j).children
      · simpa [hc] using h
      · simp [hc, List.nodup_append, h]
    · rwa [add_child_reg, updAt_of_le _ _ _ (Nat.le_of_not_lt hl)]
  · rwa [add_child_reg, nodeAt_updAt_of_ne _ _ _ _ hj]

theorem add_child_reg_self (reg : Registry) (p c : Nat) (h : p < reg.length) :
    c ∈ (nodeAt (add_child_reg reg p c) p).children := by
  rw [add_child_reg, nodeAt_updAt_self _ _ _ h]
  by_cases hc : c ∈ (nodeAt reg p).children
  · simp [hc]
  · simp [hc]

theorem add_child_all_length (ps : List Nat) (c : Nat) (reg : Registry) :
    (add_child_all ps c reg).length = reg.length := by
  induction ps generalizing reg with
  | nil => rfl
  | cons p rest ih => rw [add_child_all, ih, add_child_reg, updAt_length]

theorem add_child_all_fields (ps : List Nat) (c : Nat) (reg : Registry) (j : Nat) :
    (nodeAt (add_child_all ps c reg) j).rid = (nodeAt reg j).rid ∧
    (nodeAt (add_child_all ps c reg) j).parents = (nodeAt reg j).parents ∧
    (nodeAt (add_child_all ps c reg) j).ast_node = (nodeAt reg j).ast_node ∧
    (nodeAt (add_child_all ps c reg) j).control_set = (nodeAt reg j).control_set ∧
    (nodeAt (add_child_all ps c reg) j).relevant_set = (nodeAt reg j).relevant_set ∧
    ∃ ext, (nodeAt (add_child_all ps c reg) j).children = (nodeAt reg j).children ++ ext := by
  induction ps generalizing reg with
  | nil => exact ⟨rfl, rfl, rfl, rfl, rfl, [], by simp [add_child_all]⟩
  | cons p rest ih =>
    rw [add_child_all]
    obtain ⟨h1, h2, h3, h4, h5, e1, he1⟩ := add_child_reg_fields reg p c j
    obtain ⟨g1, g2, g3, g4, g5, e2, he2⟩ := ih (add_child_reg reg p c)
    exact ⟨g1.trans h1, g2.trans h2, g3.trans h3, g4.trans h4, g5.trans h5,
      e1 ++ e2, by rw [he2, he1, List.append_assoc]⟩

theorem add_child_all_nodup (ps : List Nat) (c : Nat) (reg : Registry) (j : Nat)
    (h : (nodeAt reg j).children.Nodup) :
    (nodeAt (add_child_all ps c reg) j).children.Nodup := by
  induction ps generalizing reg with
  | nil => exact h
  | cons p rest ih => exact ih _ (add_child_reg_nodup _ _ _ _ h)

theorem newNode_fst (ps : List Nat) (a : PyAst) (reg : Registry) :
    (newNode ps a reg).1 = reg.length := rfl

theorem newNode_length (ps : List Nat) (a : PyAst) (reg : Registry) :
    (newNode ps a reg).2.length = reg.length + 1 := by
  simp [newNode, add_child_all_length]

theorem nodeAt_newNode_self (ps : List Nat) (a : PyAst) (reg : Registry) :
    nodeAt (newNode ps a reg).2 reg.length =
      ⟨reg.length, ps, a, [], ∅, ∅⟩ := by
  rw [newNode]
  have h := add_child_all_length ps reg.length reg
  calc nodeAt (add_child_all ps reg.length reg ++
        [⟨reg.length, ps, a, [], ∅, ∅⟩]) reg.length
      = nodeAt (add_child_all ps reg.length reg ++
        [⟨reg.length, ps, a, [], ∅, ∅⟩]) (add_child_all ps reg.length reg).length := by rw [h]
    _ = _ := nodeAt_append_self _ _

theorem nodeAt_newNode_old (ps : List Nat) (a : PyAst) (reg : Registry) (j : Nat)
    (hj : j < reg.length) :
    (nodeAt (newNode ps a reg).2 j).rid = (nodeAt reg j).rid ∧
    (nodeAt (newNode ps a reg).2 j).parents = (nodeAt reg j).parents ∧
    (nodeAt (newNode ps a reg).2 j).ast_node = (nodeAt reg j).ast_node ∧
    (nodeAt (newNode ps a reg).2 j).control_set = (nodeAt reg j).control_set ∧
    (nodeAt (newNode ps a reg).2 j).relevant_set = (nodeAt reg j).relevant_set ∧
    ∃ ext, (nodeAt (newNode ps a reg).2 j).children = (nodeAt reg j).children ++ ext := by
  rw [newNode]
  have hl : j < (add_child_all ps reg.length reg).length := by
    rw [add_child_all_length]; exact hj
  rw [nodeAt_append_lt _ _ _ hl]
  exact add_child_all_fields ps reg.length reg j

theorem newNode_wf (ps : List Nat) (a : PyAst) (reg : Registry)
    (hwf : WF reg) (hps : frValid ps reg) : WF (newNode ps a reg).2 := by
  intro i hi
  rw [newNode_length] at hi
  rcases Nat.lt_or_ge i reg.length with hlt | hge
  · obtain ⟨h1, h2, _, _, _, _, _⟩ := nodeAt_newNode_old ps a reg i hlt
    obtain ⟨w1, w2, w3⟩ := hwf i hlt
    refine ⟨h1.trans w1, ?_, ?_⟩
    · rw [h2, newNode_length]
      exact fun p hp => Nat.lt_succ_of_lt (w2 p hp)
    · have he : nodeAt (newNode ps a reg).2 i = nodeAt (add_child_all ps reg.length reg) i := by
        rw [newNode]
        exact nodeAt_append_lt _ _ _ (by rw [add_child_all_length]; exact hlt)
      rw [he]
      exact add_child_all_nodup _ _ _ _ w3
  · have hi2 : i = reg.length := Nat.le_antisymm (Nat.lt_succ_iff.mp hi) hge
    subst hi2
    rw [nodeAt_newNode_self]
    refine ⟨rfl, ?_, List.nodup_nil⟩
    rw [newNode_length]
    exact fun p hp => Nat.lt_succ_of_lt (hps p hp)

theorem newNode_ext (ps : List Nat) (a : PyAst) (reg : Registry) :
    ExtReg reg (newNode ps a reg).2 := by
  refine ⟨by rw [newNode_length]; exact Nat.le_succ _, fun i hi => ?_⟩
  obtain ⟨h1, h2, h3, h4, h5, _, _⟩ := nodeAt_newNode_old ps a reg i hi
  exact ⟨h1, h2, h3, fun x hx => h4 ▸ hx, h5⟩

theorem frValid_mono (fr : List Nat) (reg reg2 : Registry)
    (h : frValid fr reg) (hl : reg.length ≤ reg2.length) : frValid fr reg2 :=
  fun i hi => Nat.lt_of_lt_of_le (h i hi) hl

theorem frValid_append (l1 l2 : List Nat) (reg : Registry)
    (h1 : frValid l1 reg) (h2 : frValid l2 reg) : frValid (l1 ++ l2) reg := by
  intro i hi
  rcases List.mem_append.mp hi with h | h
  · exact h1 i h
  · exact h2 i h

theorem mark_control_length (l : List Nat) (tl : Nat) (reg : Registry) :
    (mark_control l tl reg).length = reg.length := by
  induction l generalizing reg with
  | nil => rfl
  | cons nid rest ih => rw [mark_control, ih, updAt_length]

theorem nodeAt_mark_control (l : List Nat) (tl : Nat) (reg : Registry) (j : Nat) :
    (nodeAt (mark_control l tl reg) j).rid = (nodeAt reg j).rid ∧
    (nodeAt (mark_control l tl reg) j).parents = (nodeAt reg j).parents ∧
    (nodeAt (mark_control l tl reg) j).ast_node = (nodeAt reg j).ast_node ∧
    (nodeAt (mark_control l tl reg) j).children = (nodeAt reg j).children ∧
    (nodeAt (mark_control l tl reg) j).relevant_set = (nodeAt reg j).relevant_set ∧
    (nodeAt reg j).control_set ⊆ (nodeAt (mark_control l tl reg) j).control_set := by
  induction l generalizing reg with
  | nil => exact ⟨rfl, rfl, rfl, rfl, rfl, Finset.Subset.refl _⟩
  | cons nid rest ih =>
    rw [mark_control]
    have step : (nodeAt (updAt reg nid
          (fun n => { n with control_set := insert tl n.control_set })) j).rid
            = (nodeAt reg j).rid ∧
        (nodeAt (updAt reg nid
          (fun n => { n with control_set := insert tl n.control_set })) j).parents
            = (nodeAt reg j).parents ∧
        (nodeAt (updAt reg nid
          (fun n => { n with control_set := insert tl n.control_set })) j).ast_node
            = (nodeAt reg j).ast_node ∧
        (nodeAt (updAt reg nid
          (fun n => { n with control_set := insert tl n.control_set })) j).children
            = (nodeAt reg j).children ∧
        (nodeAt (updAt reg nid
          (fun n => { n with control_set := insert tl n.control_set })) j).relevant_set
            = (nodeAt reg j).relevant_set ∧
        (nodeAt reg j).control_set ⊆ (nodeAt (updAt reg nid
          (fun n => { n with control_set := insert tl n.control_set })) j).control_set := by
      by_cases hj : j = nid
      · subst hj
        by_cases hl : j < reg.length
        · rw [nodeAt_updAt_self _ _ _ hl]
          exact ⟨rfl, rfl, rfl, rfl, rfl, Finset.subset_insert _ _⟩
        · rw [updAt_of_le _ _ _ (Nat.le_of_not_lt hl)]
          exact ⟨rfl, rfl, rfl, rfl, rfl, Finset.Subset.refl _⟩
      · rw [nodeAt_updAt_of_ne _ _ _ _ hj]
        exact ⟨rfl, rfl, rfl, rfl, rfl, Finset.Subset.refl _⟩
    obtain ⟨s1, s2, s3, s4, s5, s6⟩ := step
    obtain ⟨g1, g2, g3, g4, g5, g6⟩ := ih _
    exact ⟨g1.trans s1, g2.trans s2, g3.trans s3, g4.trans s4, g5.trans s5,
      Finset.Subset.trans s6 g6⟩

theorem mark_control_marks (l : List Nat) (tl : Nat) (reg : Registry) (j : Nat)
    (hj : j ∈ l) (hl : j < reg.length) :
    tl ∈ (nodeAt (mark_control l tl reg) j).control_set := by
  induction l generalizing reg with
  | nil => simp at hj
  | cons nid rest ih =>
    rw [mark_control]
    rcases List.mem_cons.mp hj with hje | hjr
    · subst hje
      by_cases hmem : j ∈ rest
      · exact ih _ hmem (by rw [updAt_length]; exact hl)
      · have h1 : tl ∈ (nodeAt (updAt reg j
            (fun n => { n with control_set := insert tl n.control_set })) j).control_set := by
          rw [nodeAt_updAt_self _ _ _ hl]
          exact Finset.mem_insert_self _ _
        exact (nodeAt_mark_control rest tl _ j).2.2.2.2.2 h1
    · exact ih _ hjr (by rw [updAt_length]; exact hl)

theorem mark_control_wf (l : List Nat) (tl : Nat) (reg : Registry) (hwf : WF reg) :
    WF (mark_control l tl reg) := by
  intro i hi
  rw [mark_control_length] at hi
  obtain ⟨h1, h2, _, h4, _, _⟩ := nodeAt_mark_control l tl reg i
  obtain ⟨w1, w2, w3⟩ := hwf i hi
  refine ⟨h1.trans w1, ?_, by rw [h4]; exact w3⟩
  rw [h2, mark_control_length]
  exact w2

theorem extReg_mark_control (l : List Nat) (tl : Nat) (reg : Registry) :
    ExtReg reg (mark_control l tl reg) := by
  refine ⟨by rw [mark_control_length], fun i hi => ?_⟩
  obtain ⟨h1, h2, h3, _, h5, h6⟩ := nodeAt_mark_control l tl reg i
  exact ⟨h1, h2, h3, h6, h5⟩

theorem add_parents_reg_length (t : Nat) (ps : List Nat) (reg : Registry) :
    (add_parents_reg t ps reg).length = reg.length := by
  induction ps generalizing reg with
  | nil => rfl
  | cons p rest ih => rw [add_parents_reg, ih, updAt_length]

theorem nodeAt_add_parents_ne (t : Nat) (ps : List Nat) (reg : Registry) (j : Nat)
    (h : j ≠ t) : nodeAt (add_parents_reg t ps reg) j = nodeAt reg j := by
  induction ps generalizing reg with
  | nil => rfl
  | cons p rest ih => rw [add_parents_reg, ih, nodeAt_updAt_of_ne _ _ _ _ h]

theorem add_parents_spec (t : Nat) (ps : List Nat) (reg : Registry) :
    (nodeAt (add_parents_reg t ps reg) t).rid = (nodeAt reg t).rid ∧
    (nodeAt (add_parents_reg t ps reg) t).ast_node = (nodeAt reg t).ast_node ∧
    (nodeAt (add_parents_reg t ps reg) t).children = (nodeAt reg t).children ∧
    (nodeAt (add_parents_reg t ps reg) t).control_set = (nodeAt reg t).control_set ∧
    (nodeAt (add_parents_reg t ps reg) t).relevant_set = (nodeAt reg t).relevant_set ∧
    ∃ ext, (nodeAt (add_parents_reg t ps reg) t).parents = (nodeAt reg t).parents ++ ext ∧
      ∀ x ∈ ext, x ∈ ps := by
  induction ps generalizing reg with
  | nil => exact ⟨rfl, rfl, rfl, rfl, rfl, ⟨[], by simp [add_parents_reg], by simp⟩⟩
  | cons p rest ih =>
    rw [add_parents_reg]
    have step : (nodeAt (updAt reg t (fun n =>
          if p ∈ n.parents then n else { n with parents := n.parents ++ [p] })) t).rid
            = (nodeAt reg t).rid ∧
        (nodeAt (updAt reg t (fun n =>
          if p ∈ n.parents then n else { n with parents := n.parents ++ [p] })) t).ast_node
            = (nodeAt reg t).ast_node ∧
        (nodeAt (updAt reg t (fun n =>
          if p ∈ n.parents then n else { n with parents := n.parents ++ [p] })) t).children
            = (nodeAt reg t).children ∧
        (nodeAt (updAt reg t (fun n =>
          if p ∈ n.parents then n else { n with parents := n.parents ++ [p] })) t).control_set
            = (nodeAt reg t).control_set ∧
        (nodeAt (updAt reg t (fun n =>
          if p ∈ n.parents then n else { n with parents := n.parents ++ [p] })) t).relevant_set
            = (nodeAt reg t).relevant_set ∧
        ∃ e1, (nodeAt (updAt reg t (fun n =>
          if p ∈ n.parents then n else { n with parents := n.parents ++ [p] })) t).parents
            = (nodeAt reg t).parents ++ e1 ∧ ∀ x ∈ e1, x = p := by
      by_cases hl : t < reg.length
      · rw [nodeAt_updAt_self _ _ _ hl]
        by_cases hp : p ∈ (nodeAt reg t).parents
        · rw [if_pos hp]
          exact ⟨rfl, rfl, rfl, rfl, rfl, ⟨[], by simp, by simp⟩⟩
        · rw [if_neg hp]
          exact ⟨rfl, rfl, rfl, rfl, rfl, ⟨[p], rfl, by simp⟩⟩
      · rw [updAt_of_le _ _ _ (Nat.le_of_not_lt hl)]
        exact ⟨rfl, rfl, rfl, rfl, rfl, ⟨[], by simp, by simp⟩⟩
    obtain ⟨s1, s2, s3, s4, s5, e1, he1, hil⟩ := step
    obtain ⟨g1, g2, g3, g4, g5, e2, he2, he2ps⟩ := ih _
    refine ⟨g1.trans s1, g2.trans s2, g3.trans s3, g4.trans s4, g5.trans s5,
      e1 ++ e2, by rw [he2, he1, List.append_assoc], fun x hx => ?_⟩
    rcases List.mem_append.mp hx with h | h
    · exact List.mem_cons.mpr (Or.inl (hil x h))
    · exact List.mem_cons.mpr (Or.inr (he2ps x h))

theorem add_parents_mem (t : Nat) (ps : List Nat) (reg : Registry)
    (ht : t < reg.length) :
    ∀ e ∈ ps, e ∈ (nodeAt (add_parents_reg t ps reg) t).parents := by
  induction ps generalizing reg with
  | nil => simp
  | cons p rest ih =>
    intro e he
    rw [add_parents_reg]
    rcases List.mem_cons.mp he with hep | her
    · subst hep
      have h1 : e ∈ (nodeAt (updAt reg t (fun n =>
          if e ∈ n.parents then n else { n with parents := n.parents ++ [e] })) t).parents := by
        rw [nodeAt_updAt_self _ _ _ ht]
        by_cases hp : e ∈ (nodeAt reg t).parents
        · simpa [if_pos hp] using hp
        · simp [if_neg hp]
      obtain ⟨_, _, _, _, _, ext, hext, _⟩ := add_parents_spec t rest (updAt reg t _)
      rw [hext]
      exact List.mem_append_left _ h1
    · exact ih _ (by rw [updAt_length]; exact ht) e her

theorem add_parents_wf (t : Nat) (ps : List Nat) (reg : Registry)
    (hwf : WF reg) (hps : frValid ps reg) : WF (add_parents_reg t ps reg) := by
  intro i hi
  rw [add_parents_reg_length] at hi
  obtain ⟨w1, w2, w3⟩ := hwf i hi
  by_cases hit : i = t
  · subst hit
    obtain ⟨h1, _, h3, _, _, ext, hext, hextps⟩ := add_parents_spec i ps reg
    refine ⟨h1.trans w1, ?_, by rw [h3]; exact w3⟩
    rw [hext, add_parents_reg_length]
    intro p hp
    rcases List.mem_append.mp hp with h | h
    · exact w2 p h
    · exact hps p (hextps p h)
  · rw [nodeAt_add_parents_ne _ _ _ _ hit, add_parents_reg_length]
    exact ⟨w1, w2, w3⟩

theorem extReg_add_parents_of_ge (reg reg3 : Registry) (t : Nat) (ps : List Nat)
    (h : ExtReg reg reg3) (ht : reg.length ≤ t) :
    ExtReg reg (add_parents_reg t ps reg3) := by
  refine ⟨by rw [add_parents_reg_length]; exact h.1, fun i hi => ?_⟩
  rw [nodeAt_add_parents_ne _ _ _ _ (by omega)]
  exact h.2 i hi

theorem newNode_fr (ps : List Nat) (a : PyAst) (reg : Registry) :
    frValid [(newNode ps a reg).1] (newNode ps a reg).2 := by
  intro i hi
  simp only [List.mem_singleton] at hi
  subst hi
  rw [newNode_fst, newNode_length]
  exact Nat.lt_succ_self _

mutual

theorem walk_wf (a : PyAst) : ∀ (fr : List Nat) (reg : Registry), WF reg → frValid fr reg →
    WF (walk a fr reg).2 ∧ frValid (walk a fr reg).1 (walk a fr reg).2 ∧
      ExtReg reg (walk a fr reg).2 := by
  intro fr reg hwf hfr
  cases a with
  | module body =>
    simp only [walk]
    exact walkList_wf body fr reg hwf hfr
  | assign targets value ln =>
    simp only [walk]
    have hn := newNode_wf fr (.assign targets value ln) reg hwf hfr
    have hnf := newNode_fr fr (.assign targets value ln) reg
    have hne := newNode_ext fr (.assign targets value ln) reg
    have ih := walk_wf value [(newNode fr (.assign targets value ln) reg).1]
      (newNode fr (.assign targets value ln) reg).2 hn hnf
    exact ⟨ih.1, ih.2.1, extReg_trans hne ih.2.2⟩
  | exprstmt value ln =>
    simp only [walk]
    have hn := newNode_wf fr (.exprstmt value ln) reg hwf hfr
    have hnf := newNode_fr fr (.exprstmt value ln) reg
    have hne := newNode_ext fr (.exprstmt value ln) reg
    have ih := walk_wf value [(newNode fr (.exprstmt value ln) reg).1]
      (newNode fr (.exprstmt value ln) reg).2 hn hnf
    exact ⟨ih.1, ih.2.1, extReg_trans hne ih.2.2⟩
  | binop left right =>
    simp only [walk]
    have ih1 := walk_wf left fr reg hwf hfr
    have ih2 := walk_wf right (walk left fr reg).1 (walk left fr reg).2 ih1.1 ih1.2.1
    exact ⟨ih2.1, ih2.2.1, extReg_trans ih1.2.2 ih2.2.2⟩
  | compare left right =>
    simp only [walk]
    have ih1 := walk_wf left fr reg hwf hfr
    have ih2 := walk_wf right (walk left fr reg).1 (walk left fr reg).2 ih1.1 ih1.2.1
    exact ⟨ih2.1, ih2.2.1, extReg_trans ih1.2.2 ih2.2.2⟩
  | unaryop operand =>
    simp only [walk]
    exact walk_wf operand fr reg hwf hfr
  | whilestmt test tl body =>
    simp only [walk]
    have hn := newNode_wf fr (.annassign "_while" test tl) reg hwf hfr
    have hnf := newNode_fr fr (.annassign "_while" test tl) reg
    have hne := newNode_ext fr (.annassign "_while" test tl) reg
    have ih1 := walk_wf test [(newNode fr (.annassign "_while" test tl) reg).1]
      (newNode fr (.annassign "_while" test tl) reg).2 hn hnf
    have ih2 := walkList_wf body
      (walk test [(newNode fr (.annassign "_while" test tl) reg).1]
        (newNode fr (.annassign "_while" test tl) reg).2).1
      (walk test [(newNode fr (.annassign "_while" test tl) reg).1]
        (newNode fr (.annassign "_while" test tl) reg).2).2 ih1.1 ih1.2.1
    refine ⟨add_parents_wf _ _ _ ih2.1 ih2.2.1, ?_, ?_⟩
    · refine frValid_mono _ _ _ ih1.2.1 ?_
      rw [add_parents_reg_length]
      exact Nat.le_trans ih2.2.2.1 (Nat.le_refl _)
    · refine extReg_add_parents_of_ge _ _ _ _ (extReg_trans (extReg_trans hne ih1.2.2) ih2.2.2) ?_
      rw [newNode_fst]
  | ifstmt test tl body orelse =>
    simp only [walk]
    have hn := newNode_wf fr (.annassign "_if" test tl) reg hwf hfr
    have hnf := newNode_fr fr (.annassign "_if" test tl) reg
    have hne := newNode_ext fr (.annassign "_if" test tl) reg
    have ih1 := walk_wf test [(newNode fr (.annassign "_if" test tl) reg).1]
      (newNode fr (.annassign "_if" test tl) reg).2 hn hnf
    have ih2 := walkIfBody_wf body
      (walk test [(newNode fr (.annassign "_if" test tl) reg).1]
        (newNode fr (.annassign "_if" test tl) reg).2).1
      (walk test [(newNode fr (.annassign "_if" test tl) reg).1]
        (newNode fr (.annassign "_if" test tl) reg).2).2 tl ih1.1 ih1.2.1
    have ih3 := walkIfBody_wf orelse
      (walk test [(newNode fr (.annassign "_if" test tl) reg).1]
        (newNode fr (.annassign "_if" test tl) reg).2).1
      (walkIfBody body
        (walk test [(newNode fr (.annassign "_if" test tl) reg).1]
          (newNode fr (.annassign "_if" test tl) reg).2).1
        (walk test [(newNode fr (.annassign "_if" test tl) reg).1]
          (newNode fr (.annassign "_if" test tl) reg).2).2 tl).2 tl ih2.1
      (frValid_mono _ _ _ ih1.2.1 ih2.2.2.1)
    refine ⟨ih3.1, ?_, extReg_trans (extReg_trans (extReg_trans hne ih1.2.2) ih2.2.2) ih3.2.2⟩
    refine frValid_append _ _ _ ?_ ih3.2.1
    exact frValid_mono _ _ _ ih2.2.1 ih3.2.2.1
  | annassign target ann ln =>
    exact ⟨hwf, hfr, extReg_refl reg⟩
  | forstmt body ln =>
    exact ⟨hwf, hfr, extReg_refl reg⟩
  | name id =>
    exact ⟨hwf, hfr, extReg_refl reg⟩
  | const =>
    exact ⟨hwf, hfr, extReg_refl reg⟩

theorem walkList_wf (l : List PyAst) : ∀ (fr : List Nat) (reg : Registry), WF reg →
    frValid fr reg →
    WF (walkList l fr reg).2 ∧ frValid (walkList l fr reg).1 (walkList l fr reg).2 ∧
      ExtReg reg (walkList l fr reg).2 := by
  intro fr reg hwf hfr
  cases l with
  | nil => exact ⟨hwf, hfr, extReg_refl reg⟩
  | cons s rest =>
    simp only [walkList]
    have ih1 := walk_wf s fr reg hwf hfr
    have ih2 := walkList_wf rest (walk s fr reg).1 (walk s fr reg).2 ih1.1 ih1.2.1
    exact ⟨ih2.1, ih2.2.1, extReg_trans ih1.2.2 ih2.2.2⟩

theorem walkIfBody_wf (l : List PyAst) : ∀ (fr : List Nat) (reg : Registry) (tl : Nat),
    WF reg → frValid fr reg →
    WF (walkIfBody l fr reg tl).2 ∧
      frValid (walkIfBody l fr reg tl).1 (walkIfBody l fr reg tl).2 ∧
      ExtReg reg (walkIfBody l fr reg tl).2 := by
  intro fr reg tl hwf hfr
  cases l with
  | nil => exact ⟨hwf, hfr, extReg_refl reg⟩
  | cons s rest =>
    simp only [walkIfBody]
    have ih1 := walk_wf s fr reg hwf hfr
    have hm := mark_control_wf (walk s fr reg).1 tl (walk s fr reg).2 ih1.1
    have hmf : frValid (walk s fr reg).1 (mark_control (walk s fr reg).1 tl (walk s fr reg).2) :=
      frValid_mono _ _ _ ih1.2.1 (by rw [mark_control_length])
    have ih2 := walkIfBody_wf rest (walk s fr reg).1
      (mark_control (walk s fr reg).1 tl (walk s fr reg).2) tl hm hmf
    exact ⟨ih2.1, ih2.2.1,
      (extReg_trans (extReg_trans ih1.2.2 (extReg_mark_control _ _ _)) ih2.2.2)⟩

end

/-! ### Claim C7 — `on_while` structure -/

theorem isExpr_walk : ∀ (a : PyAst), isExpr a = true →
    ∀ (fr : List Nat) (reg : Registry), walk a fr reg = (fr, reg)
  | .name _, _, _, _ => rfl
  | .const, _, _, _ => rfl
  | .binop l r, h, fr, reg => by
      simp only [isExpr, Bool.and_eq_true] at h
      simp only [walk]
      rw [isExpr_walk l h.1 fr reg]
      exact isExpr_walk r h.2 fr reg
  | .compare l r, h, fr, reg => by
      simp only [isExpr, Bool.and_eq_true] at h
      simp only [walk]
      rw [isExpr_walk l h.1 fr reg]
      exact isExpr_walk r h.2 fr reg
  | .unaryop e, h, fr, reg => by
      simp only [isExpr] at h
      simp only [walk]
      exact isExpr_walk e h fr reg

/-- C7: when the builder processes a `while` statement (with a structural
expression as its condition, as Python's parser guarantees), it creates a
single synthesized test node: the exit frontier returned for the loop is
exactly the singleton of that test node, the test node's parents start with
the incoming frontier, and every exit node of the processed loop body has
been added as an additional parent of the test node (the loop back-edge). -/
theorem C7_on_while_spec (test : PyAst) (tl : Nat) (body : List PyAst)
    (fr : List Nat) (reg : Registry) (hexpr : isExpr test = true)
    (hwf : WF reg) (hfr : frValid fr reg) :
    (walk (.whilestmt test tl body) fr reg).1 = [reg.length] ∧
    (nodeAt (walk (.whilestmt test tl body) fr reg).2 reg.length).ast_node =
      .annassign "_while" test tl ∧
    (∃ ext, (nodeAt (walk (.whilestmt test tl body) fr reg).2 reg.length).parents =
      fr ++ ext) ∧
    ∀ e ∈ (walkList body [reg.length]
        (newNode fr (.annassign "_while" test tl) reg).2).1,
      e ∈ (nodeAt (walk (.whilestmt test tl body) fr reg).2 reg.length).parents := by
  have hn := newNode_wf fr (.annassign "_while" test tl) reg hwf hfr
  have hnf : frValid [reg.length] (newNode fr (.annassign "_while" test tl) reg).2 :=
    newNode_fr fr (.annassign "_while" test tl) reg
  have hb := walkList_wf body [reg.length]
    (newNode fr (.annassign "_while" test tl) reg).2 hn hnf
  have hwalk : walk (.whilestmt test tl body) fr reg =
      ([reg.length],
        add_parents_reg reg.length
          (walkList body [reg.length] (newNode fr (.annassign "_while" test tl) reg).2).1
          (walkList body [reg.length] (newNode fr (.annassign "_while" test tl) reg).2).2) := by
    simp only [walk]
    rw [show (newNode fr (.annassign "_while" test tl) reg).1 = reg.length from rfl,
      isExpr_walk test hexpr]
  rw [hwalk]
  have hlen1 : reg.length < (newNode fr (.annassign "_while" test tl) reg).2.length := by
    rw [newNode_length]; exact Nat.lt_succ_self _
  have hlen2 : reg.length <
      (walkList body [reg.length] (newNode fr (.annassign "_while" test tl) reg).2).2.length :=
    Nat.lt_of_lt_of_le hlen1 hb.2.2.1
  have hself := nodeAt_newNode_self fr (.annassign "_while" test tl) reg
  have hfields := hb.2.2.2 reg.length hlen1
  obtain ⟨s1, s2, s3, s4, s5, ext, hext, hextin⟩ := add_parents_spec reg.length
    (walkList body [reg.length] (newNode fr (.annassign "_while" test tl) reg).2).1
    (walkList body [reg.length] (newNode fr (.annassign "_while" test tl) reg).2).2
  refine ⟨rfl, ?_, ?_, ?_⟩
  · rw [s2, hfields.2.2.1, hself]
  · refine ⟨ext, ?_⟩
    rw [hext, hfields.2.1, hself]
  · intro e he
    exact add_parents_mem _ _ _ hlen2 e he

/-- Witness for C7: wiring a `while i < 3: i = i + 1` (test line 7, body
line 8) onto the frontier `[3]` of scenario CFG `progSemi` creates test node
4, returns `[4]` as the loop exit frontier, and records body-exit node 5 as
an additional parent of node 4. -/
theorem C7_on_while_spec_witness :
    (walk (PyAst.whilestmt (.compare (.name "i") .const) 7
        [.assign ["i"] (.binop (.name "i") .const) 8]) [3] (gen_cfg progSemi)).1 = [4] ∧
    (nodeAt (walk (PyAst.whilestmt (.compare (.name "i") .const) 7
        [.assign ["i"] (.binop (.name "i") .const) 8]) [3] (gen_cfg progSemi)).2 4).ast_node =
      PyAst.annassign "_while" (.compare (.name "i") .const) 7 ∧
    5 ∈ (nodeAt (walk (PyAst.whilestmt (.compare (.name "i") .const) 7
        [.assign ["i"] (.binop (.name "i") .const) 8]) [3] (gen_cfg progSemi)).2 4).parents := by
  have h := C7_on_while_spec (.compare (.name "i") .const) 7
    [.assign ["i"] (.binop (.name "i") .const) 8] [3] (gen_cfg progSemi)
    (by decide) (by decide) (by decide)
  exact ⟨h.1, h.2.1, h.2.2.2 5 (by decide)⟩

/-! ### Claim C8 — children are the structural inverse of parents -/

theorem add_child_reg_length (reg : Registry) (p c : Nat) :
    (add_child_reg reg p c).length = reg.length := updAt_length _ _ _

theorem add_child_all_children_mono (ps : List Nat) (c : Nat) (reg : Registry) (j x : Nat)
    (h : x ∈ (nodeAt reg j).children) : x ∈ (nodeAt (add_child_all ps c reg) j).children := by
  obtain ⟨_, _, _, _, _, ext, hext⟩ := add_child_all_fields ps c reg j
  rw [hext]
  exact List.mem_append_left _ h

theorem add_child_all_mem (ps : List Nat) (c : Nat) (reg : Registry) :
    ∀ p ∈ ps, p < reg.length → c ∈ (nodeAt (add_child_all ps c reg) p).children := by
  induction ps generalizing reg with
  | nil => simp
  | cons q rest ih =>
    intro p hp hpl
    rw [add_child_all]
    rcases List.mem_cons.mp hp with hq | hr
    · subst hq
      exact add_child_all_children_mono rest c _ p c (add_child_reg_self reg p c hpl)
    · exact ih _ p hr (by rw [add_child_reg_length]; exact hpl)

theorem ucg_length (l : List Nat) (reg : Registry) :
    (update_children_go l reg).length = reg.length := by
  induction l generalizing reg with
  | nil => rfl
  | cons nid rest ih => rw [update_children_go, ih, add_child_all_length]

theorem nodeAt_ucg_fields (l : List Nat) (reg : Registry) (j : Nat) :
    (nodeAt (update_children_go l reg) j).rid = (nodeAt reg j).rid ∧
    (nodeAt (update_children_go l reg) j).parents = (nodeAt reg j).parents ∧
    (nodeAt (update_children_go l reg) j).ast_node = (nodeAt reg j).ast_node ∧
    (nodeAt (update_children_go l reg) j).control_set = (nodeAt reg j).control_set ∧
    (nodeAt (update_children_go l reg) j).relevant_set = (nodeAt reg j).relevant_set ∧
    ∃ ext, (nodeAt (update_children_go l reg) j).children =
      (nodeAt reg j).children ++ ext := by
  induction l generalizing reg with
  | nil => exact ⟨rfl, rfl, rfl, rfl, rfl, ⟨[], by simp [update_children_go]⟩⟩
  | cons nid rest ih =>
    rw [update_children_go]
    obtain ⟨s1, s2, s3, s4, s5, e1, he1⟩ :=
      add_child_all_fields (nodeAt reg nid).parents nid reg j
    obtain ⟨g1, g2, g3, g4, g5, e2, he2⟩ := ih (add_child_all (nodeAt reg nid).parents nid reg)
    exact ⟨g1.trans s1, g2.trans s2, g3.trans s3, g4.trans s4, g5.trans s5,
      ⟨e1 ++ e2, by rw [he2, he1, List.append_assoc]⟩⟩

theorem ucg_children_mono (l : List Nat) (reg : Registry) (j x : Nat)
    (h : x ∈ (nodeAt reg j).children) :
    x ∈ (nodeAt (update_children_go l reg) j).children := by
  obtain ⟨_, _, _, _, _, ext, hext⟩ := nodeAt_ucg_fields l reg j
  rw [hext]
  exact List.mem_append_left _ h

theorem ucg_nodup (l : List Nat) (reg : Registry) (j : Nat)
    (h : (nodeAt reg j).children.Nodup) :
    (nodeAt (update_children_go l reg) j).children.Nodup := by
  induction l generalizing reg with
  | nil => exact h
  | cons nid rest ih =>
    rw [update_children_go]
    exact ih _ (add_child_all_nodup _ _ _ _ h)

theorem ucg_marks (l : List Nat) (reg : Registry) :
    ∀ nid ∈ l, nid < reg.length →
      ∀ p ∈ (nodeAt reg nid).parents, p < reg.length →
        nid ∈ (nodeAt (update_children_go l reg) p).children := by
  induction l generalizing reg with
  | nil => simp
  | cons m rest ih =>
    intro nid hnid hnl p hp hpl
    rw [update_children_go]
    rcases List.mem_cons.mp hnid with he | hr
    · subst he
      exact ucg_children_mono rest _ p nid (add_child_all_mem _ _ _ p hp hpl)
    · have hpar : (nodeAt (add_child_all (nodeAt reg m).parents m reg) nid).parents =
          (nodeAt reg nid).parents :=
        (add_child_all_fields _ _ _ _).2.1
      exact ih _ nid hr (by rw [add_child_all_length]; exact hnl) p (by rw [hpar]; exact hp)
        (by rw [add_child_all_length]; exact hpl)

theorem update_children_pass_marks (reg : Registry) (hwf : WF reg) :
    ∀ i, i < reg.length → ∀ p ∈ (nodeAt reg i).parents,
      i ∈ (nodeAt (update_children_pass reg) p).children := by
  intro i hi p hp
  exact ucg_marks (List.range reg.length) reg i (List.mem_range.mpr hi) hi p hp
    ((hwf i hi).2.1 p hp)

theorem gen_cfg_eq_pass (prog : PyAst) :
    gen_cfg prog = update_children_go (List.range (gen_cfg_pre prog).length)
      (gen_cfg_pre prog) := rfl

theorem gen_cfg_pre_wf (prog : PyAst) : WF (gen_cfg_pre prog) := by
  have h0 : WF (newNode [] founderAst []).2 := by decide
  have hf : frValid [0] (newNode [] founderAst []).2 := by decide
  have hw := walk_wf prog [0] (newNode [] founderAst []).2 h0 hf
  exact newNode_wf _ _ _ hw.1 hw.2.1

theorem gen_cfg_length_pre (prog : PyAst) :
    (gen_cfg prog).length = (gen_cfg_pre prog).length := by
  rw [gen_cfg_eq_pass]
  exact ucg_length _ _

/-- C8: after CFG construction completes (including the `update_children`
finalization pass), the children lists are the structural inverse of the
parents lists: every node `C` appears in the children of each of its parents
exactly once — no missing links (the pass adds them, including ones for
late-added loop back-edge parents) and no duplicates (`add_child`
deduplicates). -/
theorem C8_children_exactly_once (prog : PyAst) :
    ∀ C ∈ gen_cfg prog, ∀ p ∈ C.parents,
      ((nodeAt (gen_cfg prog) p).children).count C.rid = 1 := by
  intro C hC p hp
  have hwf2 := gen_cfg_pre_wf prog
  rw [List.mem_iff_get] at hC
  obtain ⟨⟨i, hi⟩, hget⟩ := hC
  have hCn : nodeAt (gen_cfg prog) i = C := by
    rw [nodeAt, List.getD_eq_getElem _ _ hi]
    exact hget
  have hi2 : i < (gen_cfg_pre prog).length := by
    rw [← gen_cfg_length_pre]
    exact hi
  have hfields := nodeAt_ucg_fields (List.range (gen_cfg_pre prog).length)
    (gen_cfg_pre prog) i
  have hrid : C.rid = i := by
    rw [← hCn, gen_cfg_eq_pass, hfields.1]
    exact (hwf2 i hi2).1
  have hpar : p ∈ (nodeAt (gen_cfg_pre prog) i).parents := by
    have : (nodeAt (gen_cfg prog) i).parents = (nodeAt (gen_cfg_pre prog) i).parents := by
      rw [gen_cfg_eq_pass]
      exact hfields.2.1
    rw [← this, hCn]
    exact hp
  have hpl : p < (gen_cfg_pre prog).length := (hwf2 i hi2).2.1 p hpar
  have hmem : i ∈ (nodeAt (gen_cfg prog) p).children := by
    rw [gen_cfg_eq_pass]
    exact ucg_marks (List.range (gen_cfg_pre prog).length) (gen_cfg_pre prog) i
      (List.mem_range.mpr hi2) hi2 p hpar hpl
  have hnodup : (nodeAt (gen_cfg prog) p).children.Nodup := by
    rw [gen_cfg_eq_pass]
    exact ucg_nodup _ _ _ (hwf2 p hpl).2.2
  rw [hrid]
  exact List.count_eq_one_of_mem hnodup hmem

/-- Witness for C8: in scenario A's CFG, node 1 lists node 0 as parent and
appears exactly once among node 0's children. -/
theorem C8_children_exactly_once_witness :
    ((nodeAt (gen_cfg progA) 0).children).count (nodeAt (gen_cfg progA) 1).rid = 1 :=
  C8_children_exactly_once progA (nodeAt (gen_cfg progA) 1)
    (nodeAt_mem _ _ (by decide)) 0 (by decide)

/-! ### Claim C6 — control-set population (amended part) -/

theorem default_ctrl : (default : CFGNode).control_set = ∅ := rfl

theorem ctrl_newNode (ps : List Nat) (a : PyAst) (reg : Registry)
    (h : ∀ j, (nodeAt reg j).control_set = ∅) :
    ∀ j, (nodeAt (newNode ps a reg).2 j).control_set = ∅ := by
  intro j
  rcases Nat.lt_trichotomy j reg.length with hlt | heq | hgt
  · rw [(nodeAt_newNode_old ps a reg j hlt).2.2.2.1]
    exact h j
  · subst heq
    rw [nodeAt_newNode_self]
  · rw [nodeAt_big]
    · exact default_ctrl
    · rw [newNode_length]
      omega

theorem ctrl_add_parents (t : Nat) (ps : List Nat) (reg : Registry)
    (h : ∀ j, (nodeAt reg j).control_set = ∅) :
    ∀ j, (nodeAt (add_parents_reg t ps reg) j).control_set = ∅ := by
  intro j
  by_cases hj : j = t
  · subst hj
    rw [(add_parents_spec j ps reg).2.2.2.1]
    exact h j
  · rw [nodeAt_add_parents_ne _ _ _ _ hj]
    exact h j

mutual

theorem walk_noIf_ctrl (a : PyAst) : ∀ (fr : List Nat) (reg : Registry), noIf a = true →
    (∀ j, (nodeAt reg j).control_set = ∅) →
    ∀ j, (nodeAt (walk a fr reg).2 j).control_set = ∅ := by
  intro fr reg hno hc
  cases a with
  | module body =>
    simp only [walk]
    exact walkList_noIf_ctrl body fr reg (by simpa [noIf] using hno) hc
  | assign targets value ln =>
    simp only [walk]
    exact walk_noIf_ctrl value _ _ (by simpa [noIf] using hno) (ctrl_newNode _ _ _ hc)
  | exprstmt value ln =>
    simp only [walk]
    exact walk_noIf_ctrl value _ _ (by simpa [noIf] using hno) (ctrl_newNode _ _ _ hc)
  | binop l r =>
    simp only [noIf, Bool.and_eq_true] at hno
    simp only [walk]
    exact walk_noIf_ctrl r _ _ hno.2 (walk_noIf_ctrl l _ _ hno.1 hc)
  | compare l r =>
    simp only [noIf, Bool.and_eq_true] at hno
    simp only [walk]
    exact walk_noIf_ctrl r _ _ hno.2 (walk_noIf_ctrl l _ _ hno.1 hc)
  | unaryop e =>
    simp only [walk]
    exact walk_noIf_ctrl e _ _ (by simpa [noIf] using hno) hc
  | whilestmt test tl body =>
    simp only [noIf, Bool.and_eq_true] at hno
    simp only [walk]
    refine ctrl_add_parents _ _ _ ?_
    exact walkList_noIf_ctrl body _ _ hno.2
      (walk_noIf_ctrl test _ _ hno.1 (ctrl_newNode _ _ _ hc))
  | ifstmt test tl body orelse => simp [noIf] at hno
  | annassign target ann ln => exact hc
  | forstmt body ln => exact hc
  | name id => exact hc
  | const => exact hc

theorem walkList_noIf_ctrl (l : List PyAst) : ∀ (fr : List Nat) (reg : Registry),
    noIfList l = true → (∀ j, (nodeAt reg j).control_set = ∅) →
    ∀ j, (nodeAt (walkList l fr reg).2 j).control_set = ∅ := by
  intro fr reg hno hc
  cases l with
  | nil => exact hc
  | cons s rest =>
    simp only [noIfList, Bool.and_eq_true] at hno
    simp only [walkList]
    exact walkList_noIf_ctrl rest _ _ hno.2 (walk_noIf_ctrl s _ _ hno.1 hc)

end

theorem gen_cfg_noIf_ctrl (prog : PyAst) (h : noIf prog = true) :
    ∀ j, (nodeAt (gen_cfg prog) j).control_set = ∅ := by
  intro j
  rw [gen_cfg_eq_pass, (nodeAt_ucg_fields _ _ _).2.2.2.1]
  have h0 : ∀ j, (nodeAt (newNode [] founderAst []).2 j).control_set = ∅ := by
    intro j
    match j with
    | 0 => rfl
    | Nat.succ k => rfl
  exact ctrl_newNode _ _ _ (walk_noIf_ctrl prog [0] _ h h0) j

theorem walkIfBody_marks (l : List PyAst) : ∀ (fr : List Nat) (reg : Registry) (tl : Nat),
    WF reg → frValid fr reg → l ≠ [] →
    ∀ n ∈ (walkIfBody l fr reg tl).1,
      tl ∈ (nodeAt (walkIfBody l fr reg tl).2 n).control_set := by
  induction l with
  | nil => intro fr reg tl _ _ hne; exact absurd rfl hne
  | cons s rest ih =>
    intro fr reg tl hwf hfr _ n hn
    have ihw := walk_wf s fr reg hwf hfr
    cases rest with
    | nil =>
      simp only [walkIfBody] at hn ⊢
      exact mark_control_marks _ _ _ _ hn (ihw.2.1 n hn)
    | cons s2 rest2 =>
      simp only [walkIfBody] at hn ⊢
      exact ih _ _ _ (mark_control_wf _ _ _ ihw.1)
        (frValid_mono _ _ _ ihw.2.1 (by rw [mark_control_length])) (by simp) n hn

/-- C6 (amended): control sets are populated exactly by `if` processing: for
an `if` statement, after each branch statement the nodes on the *current
frontier* receive the condition's line number in their `control_set` (so in
particular every node of a nonempty branch's exit frontier carries it in the
final registry), while nodes created inside nested constructs that are no
longer on the frontier need not; and a program containing no `if` statement
(in particular any `while` body) ends with every control set empty. -/
theorem C6_control_sets_amended :
    (∀ (prog : PyAst), noIf prog = true →
      ∀ j, (nodeAt (gen_cfg prog) j).control_set = ∅) ∧
    (∀ (test : PyAst) (tl : Nat) (body orelse : List PyAst) (fr : List Nat)
      (reg : Registry), WF reg → frValid fr reg → body ≠ [] →
      ∀ n ∈ (walkIfBody body
          (walk test [reg.length] (newNode fr (.annassign "_if" test tl) reg).2).1
          (walk test [reg.length] (newNode fr (.annassign "_if" test tl) reg).2).2 tl).1,
        tl ∈ (nodeAt (walk (.ifstmt test tl body orelse) fr reg).2 n).control_set) ∧
    (∀ (test : PyAst) (tl : Nat) (body orelse : List PyAst) (fr : List Nat)
      (reg : Registry), WF reg → frValid fr reg → orelse ≠ [] →
      ∀ n ∈ (walkIfBody orelse
          (walk test [reg.length] (newNode fr (.annassign "_if" test tl) reg).2).1
          (walkIfBody body
            (walk test [reg.length] (newNode fr (.annassign "_if" test tl) reg).2).1
            (walk test [reg.length] (newNode fr (.annassign "_if" test tl) reg).2).2 tl).2
          tl).1,
        tl ∈ (nodeAt (walk (.ifstmt test tl body orelse) fr reg).2 n).control_set) := by
  refine ⟨fun prog h => gen_cfg_noIf_ctrl prog h, ?_, ?_⟩
  · intro test tl body orelse fr reg hwf hfr hbody n hn
    have hnw := newNode_wf fr (.annassign "_if" test tl) reg hwf hfr
    have hnf : frValid [reg.length] (newNode fr (.annassign "_if" test tl) reg).2 :=
      newNode_fr fr (.annassign "_if" test tl) reg
    have ih1 := walk_wf test [reg.length] (newNode fr (.annassign "_if" test tl) reg).2 hnw hnf
    have hm := walkIfBody_marks body _ _ tl ih1.1 ih1.2.1 hbody n hn
    have ihb := walkIfBody_wf body
      (walk test [reg.length] (newNode fr (.annassign "_if" test tl) reg).2).1
      (walk test [reg.length] (newNode fr (.annassign "_if" test tl) reg).2).2 tl
      ih1.1 ih1.2.1
    have hnlen := ihb.2.1 n hn
    have ihe := walkIfBody_wf orelse
      (walk test [reg.length] (newNode fr (.annassign "_if" test tl) reg).2).1
      (walkIfBody body
        (walk test [reg.length] (newNode fr (.annassign "_if" test tl) reg).2).1
        (walk test [reg.length] (newNode fr (.annassign "_if" test tl) reg).2).2 tl).2 tl
      ihb.1 (frValid_mono _ _ _ ih1.2.1 ihb.2.2.1)
    exact (ihe.2.2.2 n hnlen).2.2.2.1 hm
  · intro test tl body orelse fr reg hwf hfr horelse n hn
    have hnw := newNode_wf fr (.annassign "_if" test tl) reg hwf hfr
    have hnf : frValid [reg.length] (newNode fr (.annassign "_if" test tl) reg).2 :=
      newNode_fr fr (.annassign "_if" test tl) reg
    have ih1 := walk_wf test [reg.length] (newNode fr (.annassign "_if" test tl) reg).2 hnw hnf
    have ihb := walkIfBody_wf body
      (walk test [reg.length] (newNode fr (.annassign "_if" test tl) reg).2).1
      (walk test [reg.length] (newNode fr (.annassign "_if" test tl) reg).2).2 tl
      ih1.1 ih1.2.1
    exact walkIfBody_marks orelse _ _ tl ihb.1
      (frValid_mono _ _ _ ih1.2.1 ihb.2.2.1) horelse n hn

/-- Witness for C6 (amended): scenario D (a `while` loop, no `if`) ends with
node 3's control set empty, and building `if b:` (line 2) with branches
`x = 3-line` / `x = 4-line` onto the founder registry marks the then-branch
exit node 2 and the else-branch exit node 3 with line 2. -/
theorem C6_control_sets_amended_witness :
    (nodeAt (gen_cfg progD) 3).control_set = ∅ ∧
    2 ∈ (nodeAt (walk (PyAst.ifstmt (.name "b") 2 [.assign ["x"] .const 3]
      [.assign ["x"] .const 4]) [0] (newNode [] founderAst []).2).2 2).control_set ∧
    2 ∈ (nodeAt (walk (PyAst.ifstmt (.name "b") 2 [.assign ["x"] .const 3]
      [.assign ["x"] .const 4]) [0] (newNode [] founderAst []).2).2 3).control_set := by
  refine ⟨C6_control_sets_amended.1 progD (by decide) 3, ?_, ?_⟩
  · exact C6_control_sets_amended.2.1 (.name "b") 2 [.assign ["x"] .const 3]
      [.assign ["x"] .const 4] [0] (newNode [] founderAst []).2 (by decide) (by decide)
      (List.cons_ne_nil _ _) 2 (by decide)
  · exact C6_control_sets_amended.2.2 (.name "b") 2 [.assign ["x"] .const 3]
      [.assign ["x"] .const 4] [0] (newNode [] founderAst []).2 (by decide) (by decide)
      (List.cons_ne_nil _ _) 3 (by decide)
